import Mathlib

/-!
Verification of the optimization-strategy pipeline and live-metrics
distribution mechanism of the unified-ai-coding-platform repository.

Text is modelled as `List Char`; Python `str.split()`, `str.replace`,
`str.strip()`, `str.lower()` and `in` are embedded as executable functions
below, and the four source variants of the optimizer
(`api/optimize.py`, `optimization-backend/app.py`,
`optimization-backend/simple_app.py`, `start-fastapi.py`) are translated
on top of them.
-/

namespace UnifiedOpt

/-- Characters treated as whitespace by Python `str.split()` / `str.strip()`
(ASCII whitespace; the prompts and tables in the source are ASCII). -/
def isSpc (c : Char) : Bool :=
  c == ' ' || c == '\t' || c == '\n' || c == '\r' || c == '\x0b' || c == '\x0c'

/-- Number of whitespace-separated words, written as a left-to-right scan.
The boolean argument records whether the previous character was part of a
word (so the scan is inside a token). -/
def tokensAux : Bool → List Char → Nat
  | _, [] => 0
  | inTok, c :: cs =>
    if isSpc c then tokensAux false cs
    else (if inTok then 0 else 1) + tokensAux true cs

/-- Accumulator-based splitter: `cur` holds the current word reversed. -/
def splitAux : List Char → List Char → List (List Char)
  | [], cur => if cur.isEmpty then [] else [cur.reverse]
  | c :: cs, cur =>
    if isSpc c then
      if cur.isEmpty then splitAux cs [] else cur.reverse :: splitAux cs []
    else splitAux cs (c :: cur)

/-- Python `s.split()`: split on runs of whitespace, dropping empty words. -/
def splitWs (s : List Char) : List (List Char) := splitAux s []

/-- `len(s.split())`, the token count the source computes. -/
def wordCount (s : List Char) : Nat := (splitWs s).length

/-- Python `" ".join(ws)`. -/
def joinSp : List (List Char) → List Char
  | [] => []
  | [w] => w
  | w :: x :: xs => w ++ ' ' :: joinSp (x :: xs)

/-- Fueled worker for `replaceAll`; fuel at least the length of the list
makes it total and keeps the recursion structural so that the kernel can
evaluate it. -/
def replaceAllF (p q : List Char) : Nat → List Char → List Char
  | _, [] => []
  | 0, s => s
  | n + 1, c :: cs =>
    if p.isPrefixOf (c :: cs) && !p.isEmpty then
      q ++ replaceAllF p q n (cs.drop (p.length - 1))
    else
      c :: replaceAllF p q n cs

/-- Python `s.replace(p, q)` for nonempty `p`: replace every
non-overlapping occurrence of `p` left to right by `q`. -/
def replaceAll (p q s : List Char) : List Char := replaceAllF p q s.length s

/-- Python `p in s`: substring test. -/
def containsSub (p : List Char) : List Char → Bool
  | [] => p.isEmpty
  | c :: cs => p.isPrefixOf (c :: cs) || containsSub p cs

/-- Number of (possibly overlapping) occurrences of `p` in `s`. -/
def occCount (p s : List Char) : Nat :=
  (List.range (s.length + 1)).countP (fun i => p.isPrefixOf (s.drop i))

/-- Whether the last character of a list is a non-whitespace character. -/
def lastNS : List Char → Bool
  | [] => false
  | [c] => !isSpc c
  | _ :: c :: cs => lastNS (c :: cs)

/-- Python `s.lower()` (ASCII case folding; all table entries are ASCII). -/
def lowerL (s : List Char) : List Char := s.map Char.toLower

/-- Python `s.strip()`: drop leading and trailing whitespace. -/
def stripL (s : List Char) : List Char :=
  ((s.dropWhile isSpc).reverse.dropWhile isSpc).reverse

/-- Shorthand used to write the source's string tables. -/
abbrev cl (s : String) : List Char := s.toList

/-- Apply a list of (pattern, replacement) substitutions in order, as the
source's sequence of `optimized = optimized.replace(a, b)` statements. -/
def applyPairs (ps : List (List Char × List Char)) (s : List Char) : List Char :=
  ps.foldl (fun acc pr => replaceAll pr.1 pr.2 acc) s

/-- The `verbose_replacements` table of `api/optimize.py` (dict insertion
order, which Python preserves during iteration). -/
def verbosePairs : List (List Char × List Char) :=
  [(cl "in order to", cl "to"),
   (cl "due to the fact that", cl "because"),
   (cl "at this point in time", cl "now"),
   (cl "i would like to", cl "need"),
   (cl "can you help me", cl "help"),
   (cl "if it is possible", cl "if possible"),
   (cl "as soon as possible", cl "ASAP"),
   (cl "with regard to", cl "regarding"),
   (cl "in the event that", cl "if"),
   (cl "prior to", cl "before"),
   (cl "subsequent to", cl "after"),
   (cl "in the near future", cl "soon"),
   (cl "in the meantime", cl "meanwhile"),
   (cl "for the purpose of", cl "to"),
   (cl "in the case of", cl "if"),
   (cl "with reference to", cl "re:"),
   (cl "in accordance with", cl "per"),
   (cl "in the absence of", cl "without"),
   (cl "in the presence of", cl "with"),
   (cl "in the context of", cl "in"),
   (cl "with respect to", cl "re:"),
   (cl "in terms of", cl "for"),
   (cl "from the perspective of", cl "from"),
   (cl "in the form of", cl "as"),
   (cl "in the process of", cl "while"),
   (cl "in the course of", cl "during"),
   (cl "in the midst of", cl "amid"),
   (cl "in the wake of", cl "after"),
   (cl "in the face of", cl "despite"),
   (cl "in the light of", cl "given")]

/-- The `filler_words` set of `api/optimize.py`. -/
def fillerWords : List (List Char) :=
  [cl "the", cl "a", cl "an", cl "and", cl "or", cl "but", cl "in", cl "on",
   cl "at", cl "to", cl "for", cl "of", cl "with", cl "by", cl "please",
   cl "kindly", cl "would", cl "could", cl "should", cl "might", cl "may",
   cl "can", cl "will", cl "shall"]

/-- Keep condition of the filler loop in `api/optimize.py`:
`if word.lower() not in filler_words or len(word) > 3`. -/
def keepWord (w : List Char) : Bool :=
  !(decide (lowerL w ∈ fillerWords)) || decide (3 < w.length)

/-- Filler-word removal of `api/optimize.py` (split, filter, rejoin). -/
def apiFillerRemoval (s : List Char) : List Char :=
  joinSp ((splitWs s).filter keepWord)

/-- Punctuation/whitespace fixups of `api/optimize.py`, in statement order. -/
def punctPairs : List (List Char × List Char) :=
  [(cl "  ", cl " "), (cl " ,", cl ","), (cl " .", cl "."),
   (cl " ?", cl "?"), (cl " !", cl "!")]

/-- Pattern contractions of `api/optimize.py` ("Strategy 4"). -/
def patternPairs : List (List Char × List Char) :=
  [(cl "create a", cl "create"), (cl "build a", cl "build"),
   (cl "make a", cl "make"), (cl "generate a", cl "generate"),
   (cl "implement a", cl "implement"), (cl "develop a", cl "develop")]

/-- The optimized text produced by `optimize_prompt` in `api/optimize.py`:
verbose replacements, filler removal, space cleanup, punctuation fixes,
pattern contraction, final strip. -/
def apiOptimizedText (p : List Char) : List Char :=
  let o1 := applyPairs verbosePairs p
  let o2 := apiFillerRemoval o1
  let o3 := joinSp (splitWs o2)
  let o4 := applyPairs punctPairs o3
  let o5 := applyPairs patternPairs o4
  stripL o5

/-- Python `min(a, b)` on rationals, written so the kernel can evaluate it;
it agrees with `min` (see `qmin_eq_min`). -/
def qmin (a b : ℚ) : ℚ := if a ≤ b then a else b

/-- The quality-score formula shared by the spec and `api/optimize.py`, as a
function of the reduction ratio. -/
def qualityOfRatio (r : ℚ) : ℚ := qmin (95/100) (85/100 + r * (3/10))

/-- Result record built by `optimize_prompt` in `api/optimize.py`
(`token_analysis` and `ml_insights` fields inlined). -/
structure ApiResult where
  original_prompt : List Char
  optimized_prompt : List Char
  cost_reduction : ℚ
  quality_score : ℚ
  original_tokens : Nat
  optimized_tokens : Nat
  reduction_percentage : ℚ
  complexity_score : ℚ
  optimization_potential : ℚ
  confidence : ℚ
  strategy_effectiveness : ℚ
  optimization_strategies : List String
deriving DecidableEq, Repr

/-- `optimize_prompt` of `api/optimize.py`. `token_reduction` is
`max(0, original - optimized)`, which is truncated subtraction on `Nat`. -/
def apiOptimize (p : List Char) : ApiResult :=
  let optimized := apiOptimizedText p
  let original_tokens := wordCount p
  let optimized_tokens := wordCount optimized
  let token_reduction := original_tokens - optimized_tokens
  let q := qualityOfRatio ((token_reduction : ℚ) / ((max original_tokens 1 : Nat) : ℚ))
  { original_prompt := p
    optimized_prompt := optimized
    cost_reduction := (token_reduction : ℚ) * (2/1000)
    quality_score := q
    original_tokens := original_tokens
    optimized_tokens := optimized_tokens
    reduction_percentage :=
      if 0 < original_tokens then (token_reduction : ℚ) / (original_tokens : ℚ) * 100 else 0
    complexity_score := qmin 1 ((original_tokens : ℚ) / 50)
    optimization_potential := qmin 1 ((token_reduction : ℚ) / 10)
    confidence := q
    strategy_effectiveness := qmin 1 ((token_reduction : ℚ) / 5)
    optimization_strategies :=
      ["filler_removal", "verbose_phrase_replacement",
       "punctuation_optimization", "pattern_optimization"] }

/-- The `/optimize` route of `api/optimize.py`: the handler passes only the
prompt to `optimize_prompt` (the strategy hint of the request is never
read), wraps exceptions as HTTP 500 — and no operation in `optimize_prompt`
can raise, so the endpoint always returns a result. -/
def apiOptimizeEndpoint (p : List Char) (_strategy : String) :
    Except (Nat × String) ApiResult :=
  Except.ok (apiOptimize p)

/-- `redundant_phrases` of `simple_app.py`. -/
def simpleRedundant : List (List Char) :=
  [cl "please", cl "kindly", cl "if possible", cl "if you can",
   cl "would you mind", cl "i would like to", cl "i want to",
   cl "i need to", cl "can you help me"]

/-- The optimized text of `simple_optimize_prompt` in `simple_app.py`:
redundant-phrase removal (with a strip after each), three sentence
simplifications, space cleanup. (Lines 77-78 of the source compute
`filtered_words` but never use it, so filler removal has no effect there.) -/
def simpleOptimizedText (p : List Char) : List Char :=
  let o1 := simpleRedundant.foldl (fun t ph => stripL (replaceAll ph [] t)) p
  let o2 := replaceAll (cl "in order to") (cl "to") o1
  let o3 := replaceAll (cl "due to the fact that") (cl "because") o2
  let o4 := replaceAll (cl "at this point in time") (cl "now") o3
  joinSp (splitWs o4)

/-- Result record of `simple_optimize_prompt` in `simple_app.py`. -/
structure SimpleResult where
  original_prompt : List Char
  optimized_prompt : List Char
  cost_reduction : ℚ
  quality_score : ℚ
  original_tokens : Nat
  optimized_tokens : Nat
  reduction_percentage : ℚ
  complexity_score : ℚ
  optimization_potential : ℚ
  confidence : ℚ
  optimization_strategies : List String
deriving DecidableEq, Repr

/-- `simple_optimize_prompt` of `simple_app.py`. Its quality formula
`min(0.95, 0.8 + (token_reduction / original_tokens) * 0.3)` divides by
`original_tokens` unguarded, so the call raises `ZeroDivisionError` when
the prompt splits into zero words; modelled as `Except.error`. -/
def simpleOptimize (p : List Char) : Except String SimpleResult :=
  let original_tokens := wordCount p
  let optimized := simpleOptimizedText p
  let optimized_tokens := wordCount optimized
  let token_reduction := original_tokens - optimized_tokens
  if original_tokens = 0 then Except.error "ZeroDivisionError"
  else
    let q := qmin (95/100 : ℚ) (8/10 + ((token_reduction : ℚ) / (original_tokens : ℚ)) * (3/10))
    Except.ok
      { original_prompt := p
        optimized_prompt := optimized
        cost_reduction := (token_reduction : ℚ) * (2/1000)
        quality_score := q
        original_tokens := original_tokens
        optimized_tokens := optimized_tokens
        reduction_percentage := (token_reduction : ℚ) / (original_tokens : ℚ) * 100
        complexity_score := qmin 1 ((original_tokens : ℚ) / 50)
        optimization_potential := qmin 1 ((token_reduction : ℚ) / 10)
        confidence := q
        optimization_strategies :=
          ["filler_removal", "redundancy_reduction", "sentence_simplification"] }

/-- `filler_words` of `start-fastapi.py` (a plain list, no length guard in
the filter). -/
def startFillerWords : List (List Char) :=
  [cl "the", cl "a", cl "an", cl "and", cl "or", cl "but", cl "in", cl "on",
   cl "at", cl "to", cl "for", cl "of", cl "with", cl "by", cl "please",
   cl "kindly"]

/-- Filler-word removal of `start-fastapi.py`:
`[word for word in words if word.lower() not in filler_words]`, rejoined. -/
def startFillerRemoval (s : List Char) : List Char :=
  joinSp ((splitWs s).filter (fun w => !(decide (lowerL w ∈ startFillerWords))))

/-- `complexity_indicators` of `MLOptimizationEngine._calculate_complexity`
in `app.py`. -/
def complexityIndicators : List (List Char) :=
  [cl "machine learning", cl "neural network", cl "deep learning",
   cl "algorithm", cl "optimization", cl "performance", cl "scalability",
   cl "microservices", cl "real-time", cl "asynchronous", cl "concurrent",
   cl "distributed"]

/-- `_calculate_complexity` of `app.py`: count the indicators present in the
lowercased prompt (each contributes at most 1), divide by 5, clamp to 1. -/
def calcComplexity (p : List Char) : ℚ :=
  qmin 1 ((complexityIndicators.countP (fun ind => containsSub ind (lowerL p)) : ℚ) / 5)

/-- `_entropy_optimization` of `app.py`: keep a word when its relative
frequency in the original word list exceeds 0.1 or its length exceeds 6.
(When the word list is empty the loop body never runs, so the division by
`total_words = 0` is never executed.) -/
def entropyOpt (p : List Char) : List Char :=
  let words := splitWs p
  let total := words.length
  joinSp (words.filter (fun w =>
    decide ((words.count w : ℚ) / (total : ℚ) > 1/10) || decide (6 < w.length)))

/-- Replacement table of `_semantic_compression` in `app.py`. -/
def semPairs : List (List Char × List Char) :=
  [(cl "create a", cl "build"), (cl "implement a", cl "code"),
   (cl "develop a", cl "make"), (cl "construct a", cl "build"),
   (cl "generate a", cl "create"), (cl "produce a", cl "make"),
   (cl "design a", cl "build"), (cl "establish a", cl "create")]

/-- `_semantic_compression` of `app.py`: lowercase the prompt, then apply
the replacement table. -/
def semanticComp (p : List Char) : List Char := applyPairs semPairs (lowerL p)

/-- `redundant_phrases` of `_context_aware_trimming` in `app.py`. -/
def redundantPhrases : List (List Char) :=
  [cl "please", cl "kindly", cl "i would like to", cl "i need to",
   cl "could you", cl "would you", cl "i want to"]

/-- `_context_aware_trimming` of `app.py`: remove each redundant phrase as a
substring, then re-collapse whitespace with `' '.join(split())`. -/
def contextTrim (p : List Char) : List Char :=
  joinSp (splitWs (redundantPhrases.foldl (fun t ph => replaceAll ph [] t) p))

/-- `_adaptive_compression` of `app.py`: entropy optimization, then semantic
compression, then context trimming, in sequence. -/
def adaptiveComp (p : List Char) : List Char :=
  contextTrim (semanticComp (entropyOpt p))

/-- `_ml_guided_optimization` of `app.py`, taking the complexity score of
the insight bundle (which the endpoint always fills with
`_calculate_complexity(prompt)`). -/
def mlGuided (c : ℚ) (p : List Char) : List Char :=
  if c > 7/10 then entropyOpt p
  else if c > 4/10 then semanticComp p
  else contextTrim p

/-- Strategy selection and dispatch of the `/optimize` endpoint in `app.py`:
the `auto` hint picks a strategy name from the three-way complexity branch,
any other hint is looked up in the strategy table directly, and a name
absent from the table raises `KeyError` (surfaced as HTTP 500). -/
def appOptimizeText (strategy : String) (p : List Char) : Except String (List Char) :=
  let c := calcComplexity p
  let strat :=
    if strategy = "auto" then
      if c > 7/10 then "ml_guided_optimization"
      else if c > 4/10 then "adaptive_compression"
      else "semantic_compression"
    else strategy
  if strat = "entropy_optimization" then Except.ok (entropyOpt p)
  else if strat = "semantic_compression" then Except.ok (semanticComp p)
  else if strat = "context_aware_trimming" then Except.ok (contextTrim p)
  else if strat = "ml_guided_optimization" then Except.ok (mlGuided c p)
  else if strat = "adaptive_compression" then Except.ok (adaptiveComp p)
  else Except.error "KeyError"

/-- `RealTimeAnalytics.update_metrics` of `app.py`: append, then keep only
the last 1000 entries (`self.metrics_history[-1000:]`). Entries are
abstracted to their identity. -/
def update_metrics (h : List Nat) (r : Nat) : List Nat :=
  let h' := h ++ [r]
  if 1000 < h'.length then h'.drop (h'.length - 1000) else h'

/-- `total_optimizations` of `RealTimeAnalytics.get_real_time_analytics`:
the length of the history (0 for the empty history). -/
def snapshotTotal (h : List Nat) : Nat := h.length

/-- A sequence of `update_metrics` calls starting from the empty history. -/
def recordAll (rs : List Nat) : List Nat := rs.foldl update_metrics []

/-- Loop of `ConnectionManager.broadcast` in `app.py`, with Python's
list-iterator semantics made explicit: the iterator keeps an index `n` into
the (mutated) list, and a failing send removes the connection from the list
being iterated (`self.active_connections.remove(connection)`). Returns the
final registry and the connections that received the message. Fuel keeps
the recursion structural; `conns.length` steps always suffice. -/
def cmLoopF (fails : Nat → Bool) : Nat → List Nat → Nat → List Nat → List Nat × List Nat
  | 0, conns, _, received => (conns, received)
  | fuel + 1, conns, n, received =>
    if h : n < conns.length then
      let c := conns.get ⟨n, h⟩
      if fails c then cmLoopF fails fuel (conns.erase c) (n + 1) received
      else cmLoopF fails fuel conns (n + 1) (received ++ [c])
    else (conns, received)

/-- `ConnectionManager.broadcast` of `app.py`. -/
def cmBroadcast (fails : Nat → Bool) (conns : List Nat) : List Nat × List Nat :=
  cmLoopF fails conns.length conns 0 []

/-- `broadcast_message` of `api/optimize.py`: send to every connection,
collecting failures in `disconnected`, then remove the failures from the
registry after the send loop. -/
def bmBroadcast (fails : Nat → Bool) (conns : List Nat) : List Nat × List Nat :=
  let disconnected := conns.filter fails
  (disconnected.foldl (fun l c => l.erase c) conns,
   conns.filter (fun c => !fails c))

/-! ### Basic lemmas about the embedded string operations -/

theorem qmin_eq_min (a b : ℚ) : qmin a b = min a b := by
  unfold qmin
  split
  · exact (min_eq_left (by assumption)).symm
  · exact (min_eq_right (le_of_not_le (by assumption))).symm

theorem qmin_right {a b : ℚ} (h : b ≤ a) : qmin a b = b := by
  rw [qmin_eq_min]; exact min_eq_right h

theorem qmin_left {a b : ℚ} (h : a ≤ b) : qmin a b = a := by
  rw [qmin_eq_min]; exact min_eq_left h

/-- The fuel argument of `replaceAllF` is irrelevant once it covers the
length of the list. -/
theorem raF_irrel (p q : List Char) :
    ∀ (n : Nat) (s : List Char) (m : Nat), s.length ≤ n → s.length ≤ m →
      replaceAllF p q n s = replaceAllF p q m s := by
  intro n
  induction n with
  | zero =>
    intro s m hn _
    rw [List.length_eq_zero.mp (Nat.le_zero.mp hn)]
    cases m <;> rfl
  | succ n ih =>
    intro s m hn hm
    cases s with
    | nil => cases m <;> rfl
    | cons c cs =>
      cases m with
      | zero => exact absurd hm (by simp)
      | succ m =>
        have hcs : cs.length ≤ n := Nat.succ_le_succ_iff.mp hn
        have hcs' : cs.length ≤ m := Nat.succ_le_succ_iff.mp hm
        simp only [replaceAllF]
        split
        · exact congrArg (q ++ ·)
            (ih (cs.drop (p.length - 1)) m
              (le_trans (by simpa using Nat.sub_le cs.length (p.length - 1)) hcs)
              (le_trans (by simpa using Nat.sub_le cs.length (p.length - 1)) hcs'))
        · exact congrArg (c :: ·) (ih cs m hcs hcs')

theorem replaceAll_nil (p q : List Char) : replaceAll p q [] = [] := rfl

/-- One-step unfolding of `replaceAll` on a nonempty list. -/
theorem replaceAll_cons (p q : List Char) (c : Char) (cs : List Char) :
    replaceAll p q (c :: cs) =
      if p.isPrefixOf (c :: cs) && !p.isEmpty then
        q ++ replaceAll p q (cs.drop (p.length - 1))
      else c :: replaceAll p q cs := by
  show replaceAllF p q (cs.length + 1) (c :: cs) = _
  simp only [replaceAllF]
  split
  · exact congrArg (q ++ ·)
      (raF_irrel p q cs.length (cs.drop (p.length - 1)) (cs.drop (p.length - 1)).length
        (by simpa using Nat.sub_le cs.length (p.length - 1)) (Nat.le_refl _))
  · rfl

/-- A list with a boolean prefix decomposes as that prefix and the drop. -/
theorem ipo_drop : ∀ {p s : List Char}, p.isPrefixOf s = true → s = p ++ s.drop p.length := by
  intro p
  induction p with
  | nil => intro s _; simp
  | cons a p ih =>
    intro s h
    cases s with
    | nil => simp [List.isPrefixOf] at h
    | cons b t =>
      simp only [List.isPrefixOf, Bool.and_eq_true, beq_iff_eq] at h
      obtain ⟨rfl, h2⟩ := h
      simpa using ih h2

/-- Appending decomposes the word-count scan; the scan continues with the
context given by the last character of the first part. -/
theorem tok_append : ∀ (w : List Char), w ≠ [] → ∀ (b : Bool) (r : List Char),
    tokensAux b (w ++ r) = tokensAux b w + tokensAux (lastNS w) r := by
  intro w
  induction w with
  | nil => intro h; exact absurd rfl h
  | cons c w ih =>
    intro _ b r
    cases w with
    | nil =>
      by_cases hc : isSpc c = true
      · simp [tokensAux, lastNS, hc]
      · simp [tokensAux, lastNS, hc, Nat.add_assoc]
    | cons d w' =>
      have key : ∀ b', tokensAux b' ((d :: w') ++ r) =
          tokensAux b' (d :: w') + tokensAux (lastNS (d :: w')) r :=
        fun b' => ih (by simp) b' r
      have e1 : tokensAux b ((c :: d :: w') ++ r) =
          if isSpc c = true then tokensAux false ((d :: w') ++ r)
          else (if b then 0 else 1) + tokensAux true ((d :: w') ++ r) := rfl
      have e2 : tokensAux b (c :: d :: w') =
          if isSpc c = true then tokensAux false (d :: w')
          else (if b then 0 else 1) + tokensAux true (d :: w') := rfl
      have e3 : lastNS (c :: d :: w') = lastNS (d :: w') := rfl
      rw [e1, e2, e3]
      by_cases hc : isSpc c = true
      · rw [if_pos hc, if_pos hc, key false]
      · rw [if_neg hc, if_neg hc, key true, Nat.add_assoc]

/-- Replacing a nonempty pattern by a nonempty replacement with no more
words (in both scan contexts) and the same end-of-word shape never
increases the word-count scan. -/
theorem replaceAll_tokens_le (p q : List Char) (hp : p ≠ []) (hq : q ≠ [])
    (hle : ∀ b, tokensAux b q ≤ tokensAux b p) (hlast : lastNS q = lastNS p) :
    ∀ (n : Nat) (s : List Char), s.length ≤ n → ∀ b,
      tokensAux b (replaceAll p q s) ≤ tokensAux b s := by
  intro n
  induction n with
  | zero =>
    intro s hs b
    rw [List.length_eq_zero.mp (Nat.le_zero.mp hs)]
    exact Nat.le_refl _
  | succ n ih =>
    intro s hs b
    cases s with
    | nil => exact Nat.le_refl _
    | cons c cs =>
      have hcs : cs.length ≤ n := Nat.succ_le_succ_iff.mp hs
      rw [replaceAll_cons]
      by_cases hpre : (p.isPrefixOf (c :: cs) && !p.isEmpty) = true
      · rw [if_pos hpre]
        have hpre' : p.isPrefixOf (c :: cs) = true := (Bool.and_eq_true .. ▸ hpre).1
        have hsplit : (c :: cs) = p ++ (c :: cs).drop p.length := ipo_drop hpre'
        have hdrop : cs.drop (p.length - 1) = (c :: cs).drop p.length := by
          cases p with
          | nil => exact absurd rfl hp
          | cons a p' => simp
        have hlen : ((c :: cs).drop p.length).length ≤ n := by
          rw [← hdrop]
          exact le_trans (by simpa using Nat.sub_le cs.length (p.length - 1)) hcs
        rw [hdrop]
        calc tokensAux b (q ++ replaceAll p q ((c :: cs).drop p.length))
            = tokensAux b q + tokensAux (lastNS q) (replaceAll p q ((c :: cs).drop p.length)) :=
              tok_append q hq b _
          _ ≤ tokensAux b p + tokensAux (lastNS p) ((c :: cs).drop p.length) := by
              rw [hlast]
              exact Nat.add_le_add (hle b) (ih _ hlen (lastNS p))
          _ = tokensAux b (p ++ (c :: cs).drop p.length) := (tok_append p hp b _).symm
          _ = tokensAux b (c :: cs) := by rw [← hsplit]
      · rw [if_neg hpre]
        by_cases hc : isSpc c = true
        · have e1 : tokensAux b (c :: replaceAll p q cs) =
              tokensAux false (replaceAll p q cs) := by simp [tokensAux, hc]
          have e2 : tokensAux b (c :: cs) = tokensAux false cs := by simp [tokensAux, hc]
          rw [e1, e2]
          exact ih cs hcs false
        · have e1 : tokensAux b (c :: replaceAll p q cs) =
              (if b then 0 else 1) + tokensAux true (replaceAll p q cs) := by
            simp [tokensAux, hc]
          have e2 : tokensAux b (c :: cs) =
              (if b then 0 else 1) + tokensAux true cs := by simp [tokensAux, hc]
          rw [e1, e2]
          exact Nat.add_le_add_left (ih cs hcs true) _

/-- Executable sufficient condition on a replacement pair for
`replaceAll_tokens_le`. -/
def pairOKb (pr : List Char × List Char) : Bool :=
  !pr.1.isEmpty && !pr.2.isEmpty &&
  decide (tokensAux true pr.2 ≤ tokensAux true pr.1) &&
  decide (tokensAux false pr.2 ≤ tokensAux false pr.1) &&
  (lastNS pr.2 == lastNS pr.1)

theorem pair_tokens_le {pr : List Char × List Char} (h : pairOKb pr = true) :
    ∀ (s : List Char) (b : Bool),
      tokensAux b (replaceAll pr.1 pr.2 s) ≤ tokensAux b s := by
  simp only [pairOKb, Bool.and_eq_true, Bool.not_eq_true', List.isEmpty_eq_false,
    decide_eq_true_eq, beq_iff_eq] at h
  obtain ⟨⟨⟨⟨hp, hq⟩, ht⟩, hf⟩, hl⟩ := h
  intro s b
  exact replaceAll_tokens_le pr.1 pr.2 hp hq
    (fun b => by cases b <;> [exact hf; exact ht]) hl s.length s (Nat.le_refl _) b

/-- A chain of `pairOKb` replacements never increases the word count. -/
theorem applyPairs_tokens_le :
    ∀ (ps : List (List Char × List Char)), ps.all pairOKb = true →
      ∀ s, tokensAux false (applyPairs ps s) ≤ tokensAux false s := by
  intro ps
  induction ps with
  | nil => intro _ s; exact Nat.le_refl _
  | cons pr ps ih =>
    intro h s
    rw [List.all_cons, Bool.and_eq_true] at h
    calc tokensAux false (applyPairs ps (replaceAll pr.1 pr.2 s))
        ≤ tokensAux false (replaceAll pr.1 pr.2 s) := ih h.2 _
      _ ≤ tokensAux false s := pair_tokens_le h.1 s false

theorem verbosePairs_ok : verbosePairs.all pairOKb = true := by decide

theorem punctPairs_ok : punctPairs.all pairOKb = true := by decide

theorem patternPairs_ok : patternPairs.all pairOKb = true := by decide

/-- The splitter emits one word per token start; a pending nonempty current
word contributes one more. -/
theorem length_splitAux : ∀ (s cur : List Char),
    (splitAux s cur).length = tokensAux (!cur.isEmpty) s + (if cur.isEmpty then 0 else 1) := by
  intro s
  induction s with
  | nil =>
    intro cur
    cases cur <;> simp [splitAux, tokensAux]
  | cons c cs ih =>
    intro cur
    by_cases hc : isSpc c = true
    · cases cur with
      | nil => simp [splitAux, tokensAux, hc, ih []]
      | cons a as => simp [splitAux, tokensAux, hc, ih [], Nat.add_comm]
    · cases cur with
      | nil => simp [splitAux, tokensAux, hc, ih [c], Nat.add_comm]
      | cons a as => simp [splitAux, tokensAux, hc, ih (c :: a :: as)]

theorem wordCount_eq_tokens (s : List Char) : wordCount s = tokensAux false s := by
  have := length_splitAux s []
  simpa [wordCount, splitWs] using this

/-- Every word the splitter emits is nonempty and whitespace-free (given
that the pending current word is whitespace-free). -/
theorem splitAux_words : ∀ (s cur : List Char), (∀ c ∈ cur, isSpc c = false) →
    ∀ w ∈ splitAux s cur, w ≠ [] ∧ ∀ c ∈ w, isSpc c = false := by
  intro s
  induction s with
  | nil =>
    intro cur hcur w hw
    by_cases h : cur.isEmpty = true
    · simp [splitAux, h] at hw
    · simp only [splitAux, h, if_false, Bool.false_eq_true, List.mem_singleton] at hw
      subst hw
      refine ⟨by simpa [List.isEmpty_iff] using h, fun c hc => hcur c ?_⟩
      exact List.mem_reverse.mp hc
  | cons c cs ih =>
    intro cur hcur w hw
    by_cases hc : isSpc c = true
    · by_cases h : cur.isEmpty = true
      · rw [show splitAux (c :: cs) cur = splitAux cs [] from by simp [splitAux, hc, h]] at hw
        exact ih [] (by simp) w hw
      · rw [show splitAux (c :: cs) cur = cur.reverse :: splitAux cs [] from by
          simp [splitAux, hc, h]] at hw
        rcases List.mem_cons.mp hw with rfl | hw'
        · refine ⟨by simpa [List.isEmpty_iff] using h, fun x hx => hcur x ?_⟩
          exact List.mem_reverse.mp hx
        · exact ih [] (by simp) w hw'
    · rw [show splitAux (c :: cs) cur = splitAux cs (c :: cur) from by simp [splitAux, hc]] at hw
      refine ih (c :: cur) ?_ w hw
      intro x hx
      rcases List.mem_cons.mp hx with rfl | hx'
      · simpa using hc
      · exact hcur x hx'

theorem splitWs_words (s : List Char) :
    ∀ w ∈ splitWs s, w ≠ [] ∧ ∀ c ∈ w, isSpc c = false :=
  splitAux_words s [] (by simp)

/-- A nonempty whitespace-free word scans as a single token. -/
theorem tok_word : ∀ (w : List Char), (∀ c ∈ w, isSpc c = false) → w ≠ [] →
    ∀ b, tokensAux b w = if b then 0 else 1 := by
  intro w
  induction w with
  | nil => intro _ h; exact absurd rfl h
  | cons c cs ih =>
    intro hw _ b
    have hc : isSpc c = false := hw c (by simp)
    cases cs with
    | nil => simp [tokensAux, hc]
    | cons d ds =>
      have hd := ih (fun x hx => hw x (by simp [hx])) (by simp) true
      rw [show tokensAux b (c :: d :: ds) =
        (if b then 0 else 1) + tokensAux true (d :: ds) from by simp [tokensAux, hc]]
      rw [hd]
      simp

theorem lastNS_word : ∀ (w : List Char), w ≠ [] → (∀ c ∈ w, isSpc c = false) →
    lastNS w = true := by
  intro w
  induction w with
  | nil => intro h; exact absurd rfl h
  | cons c cs ih =>
    intro _ hw
    cases cs with
    | nil => simp [lastNS, hw c (by simp)]
    | cons d ds =>
      rw [show lastNS (c :: d :: ds) = lastNS (d :: ds) from rfl]
      exact ih (by simp) (fun x hx => hw x (by simp [hx]))

/-- Joining nonempty whitespace-free words with single spaces produces a
text with exactly one token per word. -/
theorem tok_joinSp : ∀ (ws : List (List Char)),
    (∀ w ∈ ws, w ≠ [] ∧ ∀ c ∈ w, isSpc c = false) →
    tokensAux false (joinSp ws) = ws.length := by
  intro ws
  induction ws with
  | nil => intro _; rfl
  | cons w ws ih =>
    intro h
    obtain ⟨hwne, hwc⟩ := h w (List.mem_cons_self w ws)
    cases ws with
    | nil => simp [joinSp, tok_word w hwc hwne false]
    | cons x xs =>
      have hrest := ih (fun u hu => h u (List.mem_cons_of_mem w hu))
      rw [show joinSp (w :: x :: xs) = w ++ ' ' :: joinSp (x :: xs) from rfl]
      rw [tok_append w hwne false _, lastNS_word w hwne hwc]
      rw [show tokensAux true (' ' :: joinSp (x :: xs)) =
        tokensAux false (joinSp (x :: xs)) from by simp [tokensAux, isSpc]]
      rw [hrest, tok_word w hwc hwne false]
      simp [Nat.add_comm]

/-- Scanning a whitespace-free word moves it whole into the accumulator. -/
theorem splitAux_append_word : ∀ (w : List Char), (∀ c ∈ w, isSpc c = false) →
    ∀ (s cur : List Char), splitAux (w ++ s) cur = splitAux s (w.reverse ++ cur) := by
  intro w
  induction w with
  | nil => intro _ s cur; simp
  | cons c w ih =>
    intro hw s cur
    have hc : isSpc c = false := hw c (by simp)
    rw [List.cons_append]
    rw [show splitAux (c :: (w ++ s)) cur = splitAux (w ++ s) (c :: cur) from by
      simp [splitAux, hc]]
    rw [ih (fun x hx => hw x (by simp [hx])) s (c :: cur)]
    simp

/-- Splitting is a left inverse of joining on lists of nonempty
whitespace-free words. -/
theorem split_join : ∀ (ws : List (List Char)),
    (∀ w ∈ ws, w ≠ [] ∧ ∀ c ∈ w, isSpc c = false) →
    splitWs (joinSp ws) = ws := by
  intro ws
  induction ws with
  | nil => intro _; rfl
  | cons w ws ih =>
    intro h
    obtain ⟨hwne, hwc⟩ := h w (List.mem_cons_self w ws)
    cases ws with
    | nil =>
      show splitWs w = [w]
      unfold splitWs
      have e : splitAux (w ++ ([] : List Char)) [] = splitAux [] (w.reverse ++ []) :=
        splitAux_append_word w hwc [] []
      simp only [List.append_nil] at e
      rw [e]
      simp [splitAux, List.isEmpty_iff, hwne]
    | cons x xs =>
      show splitWs (w ++ ' ' :: joinSp (x :: xs)) = w :: x :: xs
      unfold splitWs
      rw [splitAux_append_word w hwc (' ' :: joinSp (x :: xs)) []]
      have hne' : (w.reverse ++ ([] : List Char)).isEmpty = false := by
        simp [List.isEmpty_iff, hwne]
      rw [show splitAux (' ' :: joinSp (x :: xs)) (w.reverse ++ []) =
          (w.reverse ++ ([] : List Char)).reverse :: splitAux (joinSp (x :: xs)) [] from by
        simp [splitAux, isSpc, List.isEmpty_iff, hwne]]
      have := ih (fun u hu => h u (List.mem_cons_of_mem w hu))
      unfold splitWs at this
      rw [this]
      simp

theorem allSpc_tokens : ∀ (sp : List Char), (∀ c ∈ sp, isSpc c = true) →
    ∀ b, tokensAux b sp = 0 := by
  intro sp
  induction sp with
  | nil => intro _ b; rfl
  | cons c cs ih =>
    intro h b
    simp [tokensAux, h c (by simp), ih (fun x hx => h x (by simp [hx])) false]

theorem tok_append_allSpc : ∀ (x sp : List Char), (∀ c ∈ sp, isSpc c = true) →
    ∀ b, tokensAux b (x ++ sp) = tokensAux b x := by
  intro x sp hsp b
  cases x with
  | nil => simpa using allSpc_tokens sp hsp b
  | cons c cs => rw [tok_append (c :: cs) (by simp) b sp, allSpc_tokens sp hsp, Nat.add_zero]

theorem tok_dropWhile_leading (s : List Char) :
    tokensAux false (s.dropWhile isSpc) = tokensAux false s := by
  induction s with
  | nil => rfl
  | cons c cs ih =>
    simp only [List.dropWhile_cons]
    by_cases hc : isSpc c = true
    · simp only [hc, if_true]
      rw [ih, show tokensAux false (c :: cs) = tokensAux false cs from by simp [tokensAux, hc]]
    · simp [hc]

/-- Stripping leading and trailing whitespace does not change the word
count. -/
theorem tok_stripL (s : List Char) : tokensAux false (stripL s) = tokensAux false s := by
  unfold stripL
  set u := s.dropWhile isSpc with hu
  have hdecomp : u = (u.reverse.dropWhile isSpc).reverse ++ (u.reverse.takeWhile isSpc).reverse := by
    conv_lhs => rw [← List.reverse_reverse u,
      ← List.takeWhile_append_dropWhile (p := isSpc) (l := u.reverse)]
    rw [List.reverse_append]
  have hsp : ∀ c ∈ (u.reverse.takeWhile isSpc).reverse, isSpc c = true := by
    intro c hc
    exact List.mem_takeWhile_imp (List.mem_reverse.mp hc)
  calc tokensAux false (u.reverse.dropWhile isSpc).reverse
      = tokensAux false ((u.reverse.dropWhile isSpc).reverse ++
          (u.reverse.takeWhile isSpc).reverse) := (tok_append_allSpc _ _ hsp false).symm
    _ = tokensAux false u := by rw [← hdecomp]
    _ = tokensAux false s := tok_dropWhile_leading s

theorem tok_filter_join (s : List Char) (f : List Char → Bool) :
    tokensAux false (joinSp ((splitWs s).filter f)) = ((splitWs s).filter f).length :=
  tok_joinSp _ (fun w hw => splitWs_words s w (List.mem_of_mem_filter hw))

/-- Splitting, filtering and rejoining never increases the word count. -/
theorem tok_filter_join_le (s : List Char) (f : List Char → Bool) :
    tokensAux false (joinSp ((splitWs s).filter f)) ≤ tokensAux false s := by
  rw [tok_filter_join s f]
  calc ((splitWs s).filter f).length ≤ (splitWs s).length := List.length_filter_le f _
    _ = tokensAux false s := wordCount_eq_tokens s

theorem tok_join_split (s : List Char) :
    tokensAux false (joinSp (splitWs s)) = tokensAux false s := by
  rw [tok_joinSp _ (splitWs_words s)]
  exact wordCount_eq_tokens s

/-- The whole `api/optimize.py` rewrite chain never increases the word
count. -/
theorem apiOptimizedText_tokens_le (p : List Char) :
    tokensAux false (apiOptimizedText p) ≤ tokensAux false p := by
  have e : apiOptimizedText p =
      stripL (applyPairs patternPairs (applyPairs punctPairs (joinSp (splitWs
        (joinSp ((splitWs (applyPairs verbosePairs p)).filter keepWord)))))) := rfl
  rw [e, tok_stripL]
  calc tokensAux false (applyPairs patternPairs (applyPairs punctPairs (joinSp (splitWs
          (joinSp ((splitWs (applyPairs verbosePairs p)).filter keepWord))))))
      ≤ tokensAux false (applyPairs punctPairs (joinSp (splitWs
          (joinSp ((splitWs (applyPairs verbosePairs p)).filter keepWord))))) :=
        applyPairs_tokens_le patternPairs patternPairs_ok _
    _ ≤ tokensAux false (joinSp (splitWs
          (joinSp ((splitWs (applyPairs verbosePairs p)).filter keepWord)))) :=
        applyPairs_tokens_le punctPairs punctPairs_ok _
    _ = tokensAux false (joinSp ((splitWs (applyPairs verbosePairs p)).filter keepWord)) :=
        tok_join_split _
    _ ≤ tokensAux false (applyPairs verbosePairs p) := tok_filter_join_le _ keepWord
    _ ≤ tokensAux false p := applyPairs_tokens_le verbosePairs verbosePairs_ok p

/-- Entropy-based pruning never increases the word count. -/
theorem entropyOpt_tokens_le (p : List Char) :
    tokensAux false (entropyOpt p) ≤ tokensAux false p := by
  unfold entropyOpt
  exact tok_filter_join_le p _

/-- C4: for every non-empty prompt, the whitespace-split token count of the
optimized text returned by the optimization pipeline of `api/optimize.py`
(verbose-phrase replacement, filler-word removal, punctuation
normalization, pattern contraction), and likewise of the entropy-pruning
transform of `app.py`, is at most the token count of the original
prompt. -/
theorem c4_token_nonincrease : ∀ p : List Char, p ≠ [] →
    wordCount (apiOptimizedText p) ≤ wordCount p ∧
    wordCount (entropyOpt p) ≤ wordCount p := by
  intro p _
  constructor
  · rw [wordCount_eq_tokens, wordCount_eq_tokens]
    exact apiOptimizedText_tokens_le p
  · rw [wordCount_eq_tokens, wordCount_eq_tokens]
    exact entropyOpt_tokens_le p

/-- Witness for C4 at a concrete prompt. -/
theorem c4_token_nonincrease_witness :
    wordCount (apiOptimizedText (cl "please help me in order to create a thing")) ≤
      wordCount (cl "please help me in order to create a thing") :=
  (c4_token_nonincrease (cl "please help me in order to create a thing") (by decide)).1

/-! ### Metrics aggregator lemmas -/

theorem len_update (h : List Nat) (r : Nat) :
    (update_metrics h r).length = min (h.length + 1) 1000 := by
  unfold update_metrics
  by_cases hl : 1000 < (h ++ [r]).length
  · rw [if_pos hl]
    simp only [List.length_drop, List.length_append, List.length_singleton] at *
    omega
  · rw [if_neg hl]
    simp only [List.length_append, List.length_singleton] at *
    omega

theorem update_eq_drop (h : List Nat) (r : Nat) (hlen : h.length ≤ 1000) :
    update_metrics h r = (h ++ [r]).drop (h.length + 1 - 1000) := by
  unfold update_metrics
  by_cases hl : 1000 < (h ++ [r]).length
  · rw [if_pos hl]
    simp
  · rw [if_neg hl]
    simp only [List.length_append, List.length_singleton] at hl
    have : h.length + 1 - 1000 = 0 := by omega
    simp [this]

theorem foldl_update (rs : List Nat) : ∀ (h : List Nat), h.length ≤ 1000 →
    List.foldl update_metrics h rs = (h ++ rs).drop ((h ++ rs).length - 1000) := by
  induction rs with
  | nil =>
    intro h hl
    simp only [List.foldl_nil, List.append_nil]
    have : h.length - 1000 = 0 := by omega
    rw [this, List.drop_zero]
  | cons r rs ih =>
    intro h hl
    rw [List.foldl_cons]
    have hup : (update_metrics h r).length ≤ 1000 := by
      rw [len_update]; omega
    rw [ih (update_metrics h r) hup, update_eq_drop h r hl]
    have hd : h.length + 1 - 1000 ≤ (h ++ [r]).length := by
      simp only [List.length_append, List.length_singleton]
      omega
    rw [show (h ++ [r]).drop (h.length + 1 - 1000) ++ rs
        = ((h ++ [r]) ++ rs).drop (h.length + 1 - 1000) from
      (List.drop_append_of_le_length hd).symm]
    rw [List.drop_drop, List.append_assoc, List.singleton_append]
    exact congrArg (fun i => List.drop i (h ++ r :: rs)) (by
      simp only [List.length_drop, List.length_append, List.length_cons]
      omega)

/-- The aggregator history after any sequence of records is exactly the
most recent `min(n, 1000)` entries in insertion order. -/
theorem recordAll_eq (rs : List Nat) : recordAll rs = rs.drop (rs.length - 1000) := by
  unfold recordAll
  have := foldl_update rs [] (by simp)
  simpa using this

/-- C1: the claim fails on `ConnectionManager.broadcast` of `app.py`: the
method removes a failing connection from the very list it iterates, so the
Python iterator skips the following subscriber. With registry [0, 1, 2] and
the send to subscriber 0 failing, subscriber 0 is removed, subscriber 1
stays registered but never receives the message, and only subscriber 2
receives it; `broadcast_message` of `api/optimize.py`, which defers
removals until after the send loop, delivers to both survivors as the
claim demands. -/
theorem c1_broadcast_skips_subscriber :
    cmBroadcast (fun a => a == 0) [0, 1, 2] = ([1, 2], [2]) ∧
    (1 : Nat) ∈ (cmBroadcast (fun a => a == 0) [0, 1, 2]).1 ∧
    (1 : Nat) ∉ (cmBroadcast (fun a => a == 0) [0, 1, 2]).2 ∧
    bmBroadcast (fun a => a == 0) [0, 1, 2] = ([1, 2], [1, 2]) :=
  ⟨by decide, by decide, by decide, by decide⟩

/-- C5 counterexample: the claim's "record followed immediately by snapshot
reports exactly one additional count" fails at capacity: after 1000
records the history has length 1000, and one more record leaves the
snapshot count at 1000 rather than 1001. -/
theorem c5_metrics_counterexample :
    snapshotTotal (update_metrics (recordAll (List.range 1000)) 1000) ≠
      snapshotTotal (recordAll (List.range 1000)) + 1 := by
  have h1 : (recordAll (List.range 1000)).length = 1000 := by
    rw [recordAll_eq, List.length_drop, List.length_range]
  have h2 : snapshotTotal (update_metrics (recordAll (List.range 1000)) 1000) = 1000 := by
    unfold snapshotTotal
    rw [len_update, h1]
    omega
  have h3 : snapshotTotal (recordAll (List.range 1000)) = 1000 := h1
  rw [h2, h3]
  omega

/-- C5 (amended): the history length never exceeds 1000 and always holds
the most recently recorded results in insertion order; `record` followed by
`snapshot` reports one additional count whenever the history is below
capacity, and at capacity the length stays 1000 with the oldest entry
evicted (FIFO). -/
theorem c5_metrics_amended : ∀ (h : List Nat) (r : Nat) (rs : List Nat),
    h.length ≤ 1000 →
    (update_metrics h r).length = min (h.length + 1) 1000 ∧
    (h.length < 1000 → snapshotTotal (update_metrics h r) = snapshotTotal h + 1) ∧
    (h.length = 1000 → update_metrics h r = h.tail ++ [r]) ∧
    recordAll rs = rs.drop (rs.length - 1000) := by
  intro h r rs hl
  refine ⟨len_update h r, ?_, ?_, recordAll_eq rs⟩
  · intro hlt
    unfold snapshotTotal
    rw [len_update]
    omega
  · intro h1000
    rw [update_eq_drop h r hl, h1000]
    have e : (1000 : Nat) + 1 - 1000 = 1 := by omega
    rw [e]
    cases h with
    | nil => simp at h1000
    | cons a h' => simp

/-- Witness for C5 (amended) at a concrete history. -/
theorem c5_metrics_amended_witness :
    (update_metrics [] 7).length = min (([] : List Nat).length + 1) 1000 ∧
    snapshotTotal (update_metrics [] 7) = snapshotTotal [] + 1 :=
  ⟨(c5_metrics_amended [] 7 [] (by decide)).1,
   (c5_metrics_amended [] 7 [] (by decide)).2.1 (by decide)⟩

/-- C6: with the "auto" hint the transform applied by the `app.py` endpoint
is determined solely by the three-way complexity branch: complexity > 0.7
applies entropy-based pruning (named `ml_guided_optimization`, which
re-reads the same complexity score and picks entropy pruning again);
0.4 < complexity ≤ 0.7 applies the adaptive composition of entropy
pruning, then the verbose-phrase replacement table
(`_semantic_compression`), then redundant-phrase stripping
(`_context_aware_trimming`); complexity ≤ 0.4 applies the verbose-phrase
replacement table alone. -/
theorem c6_auto_branch : ∀ p : List Char,
    appOptimizeText "auto" p = Except.ok
      (if calcComplexity p > 7/10 then entropyOpt p
       else if calcComplexity p > 4/10 then contextTrim (semanticComp (entropyOpt p))
       else semanticComp p) := by
  intro p
  unfold appOptimizeText mlGuided adaptiveComp
  by_cases h7 : calcComplexity p > 7/10
  · simp [h7]
  · by_cases h4 : calcComplexity p > 4/10
    · simp [h7, h4]
    · simp [h7, h4]

/-- C2 counterexample: the `api/optimize.py` optimize endpoint returns a
normal result for the empty prompt, for a whitespace-only prompt, and even
with an unrecognized strategy hint — no InvalidInput or InvalidStrategy
error is raised before (or after) the transforms, and a result is
produced. -/
theorem c2_validation_counterexample :
    apiOptimizeEndpoint (cl "") "auto" = Except.ok (apiOptimize (cl "")) ∧
    (apiOptimize (cl "")).optimized_prompt = [] ∧
    apiOptimizeEndpoint (cl "   ") "definitely_unknown" =
      Except.ok (apiOptimize (cl "   ")) ∧
    (apiOptimize (cl "   ")).optimized_prompt = [] :=
  ⟨rfl, by decide, rfl, by decide⟩

/-- C2 (amended): no validation exists. The `api/optimize.py` endpoint
returns a normal result for every prompt — including empty and
whitespace-only ones — and never reads the strategy hint; the `app.py`
endpoint maps an unrecognized explicit hint to a `KeyError` (surfaced as an
HTTP 500 server error, not a client-visible InvalidStrategy error), with
no result produced or recorded. -/
theorem c2_no_validation : ∀ (p : List Char) (s : String),
    apiOptimizeEndpoint p s = Except.ok (apiOptimize p) ∧
    (s ≠ "auto" → s ≠ "entropy_optimization" → s ≠ "semantic_compression" →
     s ≠ "context_aware_trimming" → s ≠ "ml_guided_optimization" →
     s ≠ "adaptive_compression" → appOptimizeText s p = Except.error "KeyError") := by
  intro p s
  refine ⟨rfl, ?_⟩
  intro h1 h2 h3 h4 h5 h6
  unfold appOptimizeText
  simp [h1, h2, h3, h4, h5, h6]

/-- Witness for C2 (amended) at a concrete prompt and hint. -/
theorem c2_no_validation_witness :
    apiOptimizeEndpoint (cl "") "bogus" = Except.ok (apiOptimize (cl "")) ∧
    appOptimizeText "bogus" (cl "hi") = Except.error "KeyError" :=
  ⟨(c2_no_validation (cl "") "bogus").1,
   (c2_no_validation (cl "hi") "bogus").2 (by decide) (by decide) (by decide)
     (by decide) (by decide) (by decide)⟩

/-- C10: for every prompt whose whitespace split is empty (the empty string
or whitespace-only input), `simple_optimize_prompt` of `simple_app.py`
raises ZeroDivisionError computing the quality score (original_tokens = 0
is used unguarded as a divisor), whereas the `api/optimize.py` variant
guards the divisor with max(original_tokens, 1) and returns a result. -/
theorem c10_divzero_on_empty : ∀ p : List Char, splitWs p = [] →
    simpleOptimize p = Except.error "ZeroDivisionError" ∧
    apiOptimizeEndpoint p "auto" = Except.ok (apiOptimize p) := by
  intro p hp
  refine ⟨?_, rfl⟩
  unfold simpleOptimize
  have h0 : wordCount p = 0 := by rw [wordCount, hp]; rfl
  simp [h0]

/-- Witness for C10 at the empty prompt. -/
theorem c10_divzero_on_empty_witness :
    simpleOptimize (cl "") = Except.error "ZeroDivisionError" :=
  (c10_divzero_on_empty (cl "") (by decide)).1

theorem ratio_nonneg (t o : Nat) :
    (0 : ℚ) ≤ ((t - o : Nat) : ℚ) / ((max t 1 : Nat) : ℚ) :=
  div_nonneg (Nat.cast_nonneg _) (Nat.cast_nonneg _)

theorem qualityOfRatio_bounds {r : ℚ} (h0 : 0 ≤ r) :
    85/100 ≤ qualityOfRatio r ∧ qualityOfRatio r ≤ 95/100 := by
  unfold qualityOfRatio
  rw [qmin_eq_min]
  constructor
  · refine le_min (by norm_num) ?_
    have h1 : (0 : ℚ) ≤ r * (3/10) := mul_nonneg h0 (by norm_num)
    linarith
  · exact min_le_left _ _

theorem qualityOfRatio_mono {r₁ r₂ : ℚ} (h : r₁ ≤ r₂) :
    qualityOfRatio r₁ ≤ qualityOfRatio r₂ := by
  unfold qualityOfRatio
  rw [qmin_eq_min, qmin_eq_min]
  refine min_le_min (le_refl _) ?_
  have h1 : r₁ * (3/10) ≤ r₂ * (3/10) := mul_le_mul_of_nonneg_right h (by norm_num)
  linarith

/-- C3 counterexample: `simple_optimize_prompt` of `simple_app.py` uses
base 0.8 rather than 0.85: on the one-word prompt "xyz" (token reduction
0) it returns quality score 0.8 where the claimed formula gives 0.85, and
0.8 also lies below the claimed floor 0.85; its confidence equals that
same 0.8. -/
theorem c3_quality_counterexample :
    (simpleOptimize (cl "xyz")).toOption.map (fun r => r.quality_score) = some (4/5) ∧
    (simpleOptimize (cl "xyz")).toOption.map (fun r => r.confidence) = some (4/5) ∧
    (4/5 : ℚ) ≠ qualityOfRatio ((0 : ℚ) / ((max 1 1 : Nat) : ℚ)) ∧
    (4/5 : ℚ) < 85/100 := by
  have h1 : wordCount (cl "xyz") = 1 := by decide
  have h2 : simpleOptimizedText (cl "xyz") = cl "xyz" := by decide
  refine ⟨?_, ?_, ?_, by norm_num⟩
  · simp only [simpleOptimize, h1, h2]
    norm_num [Except.toOption, qmin]
  · simp only [simpleOptimize, h1, h2]
    norm_num [Except.toOption, qmin]
  · unfold qualityOfRatio
    rw [qmin_eq_min]
    norm_num

/-- C3 (amended): for the `api/optimize.py` optimize, the quality score
equals min(0.95, 0.85 + (token_reduction / max(original_tokens, 1)) · 0.3),
always lies in [0.85, 0.95], the returned confidence equals the quality
score, and the formula is monotonically increasing in the reduction ratio;
`simple_app.py` instead uses base 0.8 (floor 0.8, not 0.85). -/
theorem c3_quality_amended : ∀ p : List Char, 1 ≤ (apiOptimize p).original_tokens →
    (apiOptimize p).original_tokens = wordCount p ∧
    (apiOptimize p).quality_score = qualityOfRatio
      (((wordCount p - wordCount (apiOptimizedText p) : Nat) : ℚ) /
        ((max (wordCount p) 1 : Nat) : ℚ)) ∧
    85/100 ≤ (apiOptimize p).quality_score ∧
    (apiOptimize p).quality_score ≤ 95/100 ∧
    (apiOptimize p).confidence = (apiOptimize p).quality_score ∧
    (∀ r₁ r₂ : ℚ, r₁ ≤ r₂ → qualityOfRatio r₁ ≤ qualityOfRatio r₂) := by
  intro p _
  have e1 : (apiOptimize p).original_tokens = wordCount p := rfl
  have e : (apiOptimize p).quality_score = qualityOfRatio
      (((wordCount p - wordCount (apiOptimizedText p) : Nat) : ℚ) /
        ((max (wordCount p) 1 : Nat) : ℚ)) := rfl
  have e4 : (apiOptimize p).confidence = (apiOptimize p).quality_score := rfl
  have h0 := ratio_nonneg (wordCount p) (wordCount (apiOptimizedText p))
  exact ⟨e1, e, by rw [e]; exact (qualityOfRatio_bounds h0).1,
    by rw [e]; exact (qualityOfRatio_bounds h0).2, e4,
    fun r₁ r₂ h => qualityOfRatio_mono h⟩

/-- Witness for C3 (amended) at a concrete prompt. -/
theorem c3_quality_amended_witness :
    1 ≤ (apiOptimize (cl "in order to win")).original_tokens ∧
    85/100 ≤ (apiOptimize (cl "in order to win")).quality_score ∧
    (apiOptimize (cl "in order to win")).confidence =
      (apiOptimize (cl "in order to win")).quality_score :=
  ⟨by decide,
   (c3_quality_amended (cl "in order to win") (by decide)).2.2.1,
   (c3_quality_amended (cl "in order to win") (by decide)).2.2.2.2.1⟩

/-- Modelled from the spec: "counting occurrences (case-insensitive
substring match) of a fixed domain-buzzword list within the prompt,
normalized by dividing by 5 and clamping to [0,1]", read as the total
number of substring occurrences. The source (`_calculate_complexity` in
`app.py`) instead counts each indicator at most once, however often it
occurs. -/
def specOccurrenceComplexity (p : List Char) : ℚ :=
  qmin 1 (((complexityIndicators.map (fun ind => occCount ind (lowerL p))).sum : ℚ) / 5)

/-- Sixty-word prompt containing no buzzword. -/
def promptSixty : List Char :=
  cl "x x x x x x x x x x x x x x x x x x x x x x x x x x x x x x x x x x x x x x x x x x x x x x x x x x x x x x x x x x x x"

/-- Prompt with six occurrences of the single buzzword "algorithm". -/
def sixAlgorithms : List Char :=
  cl "algorithm algorithm algorithm algorithm algorithm algorithm"

set_option maxRecDepth 8000 in
/-- C7 counterexample: the complexity score reported by `api/optimize.py`
on a 60-token buzzword-free prompt is 1 while the buzzword formula gives 0
(and it distinguishes two prompts with identical — empty — buzzword
matches), so the claim's formula and its token-count independence fail for
that variant; moreover `app.py` counts each buzzword at most once: six
occurrences of "algorithm" yield 1/5, not the occurrence-count value 1. -/
theorem c7_complexity_counterexample :
    (apiOptimize promptSixty).complexity_score = 1 ∧
    calcComplexity promptSixty = 0 ∧
    specOccurrenceComplexity promptSixty = 0 ∧
    (apiOptimize (cl "y")).complexity_score = 1/50 ∧
    ((1 : ℚ) ≠ 1/50) ∧
    calcComplexity sixAlgorithms = 1/5 ∧
    specOccurrenceComplexity sixAlgorithms = 1 ∧
    ((1 : ℚ)/5 ≠ 1) := by
  refine ⟨?_, ?_, ?_, ?_, by norm_num, ?_, ?_, by norm_num⟩
  · have e : (apiOptimize promptSixty).complexity_score =
        qmin 1 (((wordCount promptSixty : Nat) : ℚ) / 50) := rfl
    have hw : wordCount promptSixty = 60 := by decide
    rw [e, hw]
    norm_num [qmin]
  · have hc : complexityIndicators.countP
        (fun ind => containsSub ind (lowerL promptSixty)) = 0 := by decide
    unfold calcComplexity
    rw [hc]
    norm_num [qmin]
  · have hs : (complexityIndicators.map
        (fun ind => occCount ind (lowerL promptSixty))).sum = 0 := by decide
    unfold specOccurrenceComplexity
    rw [hs]
    norm_num [qmin]
  · have e : (apiOptimize (cl "y")).complexity_score =
        qmin 1 (((wordCount (cl "y") : Nat) : ℚ) / 50) := rfl
    have hw : wordCount (cl "y") = 1 := by decide
    rw [e, hw]
    norm_num [qmin]
  · have hc : complexityIndicators.countP
        (fun ind => containsSub ind (lowerL sixAlgorithms)) = 1 := by decide
    unfold calcComplexity
    rw [hc]
    norm_num [qmin]
  · have hs : (complexityIndicators.map
        (fun ind => occCount ind (lowerL sixAlgorithms))).sum = 6 := by decide
    unfold specOccurrenceComplexity
    rw [hs]
    norm_num [qmin]

/-- C7 (amended): the Strategy Selector's complexity score
(`_calculate_complexity` of `app.py`) equals the number of distinct
buzzword-list entries found as case-insensitive substrings (each entry
counted at most once), divided by 5 and clamped to [0,1]; it lies in
[0,1] and depends only on which buzzwords occur — not on token count or
occurrence multiplicity. The `complexity_score` reported by
`api/optimize.py` instead equals min(1, original_tokens / 50), a pure
function of the token count. -/
theorem c7_complexity_amended : ∀ p₁ p₂ : List Char,
    (∀ ind ∈ complexityIndicators,
        containsSub ind (lowerL p₁) = containsSub ind (lowerL p₂)) →
    calcComplexity p₁ = calcComplexity p₂ ∧
    (0 ≤ calcComplexity p₁ ∧ calcComplexity p₁ ≤ 1) ∧
    (apiOptimize p₁).complexity_score = qmin 1 (((wordCount p₁ : Nat) : ℚ) / 50) := by
  intro p₁ p₂ h
  refine ⟨?_, ⟨?_, ?_⟩, rfl⟩
  · unfold calcComplexity
    rw [List.countP_congr (q := fun ind => containsSub ind (lowerL p₂))
      (fun x hx => by rw [h x hx])]
  · unfold calcComplexity
    rw [qmin_eq_min]
    refine le_min (by norm_num) ?_
    positivity
  · unfold calcComplexity
    rw [qmin_eq_min]
    exact min_le_left _ _

/-- Witness for C7 (amended): two prompts with the same single buzzword but
different lengths and multiplicities get the same score. -/
theorem c7_complexity_amended_witness :
    calcComplexity (cl "algorithm x") =
      calcComplexity (cl "algorithm algorithm algorithm") ∧
    0 ≤ calcComplexity (cl "algorithm x") :=
  ⟨(c7_complexity_amended (cl "algorithm x")
      (cl "algorithm algorithm algorithm") (by decide)).1,
   (c7_complexity_amended (cl "algorithm x")
      (cl "algorithm algorithm algorithm") (by decide)).2.1.1⟩

/-- The keep condition of the `api/optimize.py` filler loop, spelled out:
a word survives iff it is NOT both a stop word (case-insensitively) and at
most three characters long. -/
theorem keepWord_iff (w : List Char) :
    keepWord w = true ↔ ¬(lowerL w ∈ fillerWords ∧ w.length ≤ 3) := by
  unfold keepWord
  simp only [Bool.or_eq_true, Bool.not_eq_true', decide_eq_false_iff_not, decide_eq_true_eq]
  constructor
  · rintro (h | h) ⟨hm, hl⟩
    · exact h hm
    · omega
  · intro h
    by_cases hm : lowerL w ∈ fillerWords
    · right
      by_contra hlen
      exact h ⟨hm, by omega⟩
    · left
      exact hm

/-- C8 counterexample: the `start-fastapi.py` filler removal has no length
guard, so it drops the stop word "please" even though its length exceeds
three characters, contradicting the claim for that variant. -/
theorem c8_filler_counterexample :
    startFillerRemoval (cl "the please word") = cl "word" ∧
    3 < (cl "please").length :=
  ⟨by decide, by decide⟩

/-- C8 (amended): in `api/optimize.py` the filler-word removal tokenizes on
whitespace and drops a token iff it case-insensitively matches the
stop-word set AND its length is ≤ 3; every stop word of length > 3 is
always kept, and the relative order of surviving tokens is preserved (the
result is a sublist of the original word list). The `start-fastapi.py`
variant lacks the length guard and drops every stop-word match regardless
of length. -/
theorem c8_filler_amended : ∀ s : List Char,
    splitWs (apiFillerRemoval s) = (splitWs s).filter keepWord ∧
    ((splitWs s).filter keepWord).Sublist (splitWs s) ∧
    (∀ w, w ∈ splitWs (apiFillerRemoval s) ↔
      w ∈ splitWs s ∧ ¬(lowerL w ∈ fillerWords ∧ w.length ≤ 3)) ∧
    (∀ w ∈ splitWs s, lowerL w ∈ fillerWords → 3 < w.length →
      w ∈ splitWs (apiFillerRemoval s)) ∧
    splitWs (startFillerRemoval s) =
      (splitWs s).filter (fun w => !(decide (lowerL w ∈ startFillerWords))) := by
  intro s
  have hsplit : splitWs (apiFillerRemoval s) = (splitWs s).filter keepWord := by
    unfold apiFillerRemoval
    exact split_join _ (fun w hw => splitWs_words s w (List.mem_of_mem_filter hw))
  have hsplit2 : splitWs (startFillerRemoval s) =
      (splitWs s).filter (fun w => !(decide (lowerL w ∈ startFillerWords))) := by
    unfold startFillerRemoval
    exact split_join _ (fun w hw => splitWs_words s w (List.mem_of_mem_filter hw))
  have hiff : ∀ w, w ∈ splitWs (apiFillerRemoval s) ↔
      w ∈ splitWs s ∧ ¬(lowerL w ∈ fillerWords ∧ w.length ≤ 3) := by
    intro w
    rw [hsplit, List.mem_filter, keepWord_iff]
  refine ⟨hsplit, List.filter_sublist _, hiff, ?_, hsplit2⟩
  intro w hw hmem hlen
  exact (hiff w).mpr ⟨hw, fun hc => by omega⟩

/-- Witness for C8 (amended): the stop word "please" (length 6) survives
the api filler removal. -/
theorem c8_filler_amended_witness :
    (cl "please") ∈ splitWs (apiFillerRemoval (cl "the please word")) :=
  (c8_filler_amended (cl "the please word")).2.2.2.1 (cl "please")
    (by decide) (by decide) (by decide)

/-- Replacing a pattern that does not occur in a text leaves it unchanged. -/
theorem replaceAll_no_occurrence (p q : List Char) :
    ∀ s : List Char, containsSub p s = false → replaceAll p q s = s := by
  intro s
  induction s with
  | nil => intro _; rfl
  | cons c cs ih =>
    intro h
    rw [show containsSub p (c :: cs) = (p.isPrefixOf (c :: cs) || containsSub p cs) from rfl,
      Bool.or_eq_false_iff] at h
    rw [replaceAll_cons, if_neg (by simp [h.1]), ih h.2]

/-- Removing a list of phrases none of which occurs is the identity. -/
theorem removePhrases_id : ∀ (phs : List (List Char)) (t : List Char),
    (∀ ph ∈ phs, containsSub ph t = false) →
    phs.foldl (fun acc ph => replaceAll ph [] acc) t = t := by
  intro phs
  induction phs with
  | nil => intro t _; rfl
  | cons ph phs ih =>
    intro t h
    rw [List.foldl_cons,
      replaceAll_no_occurrence ph [] t (h ph (List.mem_cons_self ph phs))]
    exact ih t (fun x hx => h x (List.mem_cons_of_mem ph hx))

/-- C9 counterexample: removing "kindly" from "pleakindlyse" splices the
surrounding characters into a fresh occurrence of "please", which only the
second application removes: the redundant-phrase-stripping transform of
`app.py` is not idempotent. -/
theorem c9_trim_counterexample :
    contextTrim (contextTrim (cl "pleakindlyse")) ≠ contextTrim (cl "pleakindlyse") ∧
    contextTrim (cl "pleakindlyse") = cl "please" ∧
    contextTrim (contextTrim (cl "pleakindlyse")) = [] :=
  ⟨by decide, by decide, by decide⟩

/-- C9 (amended): the redundant-phrase-stripping transform is idempotent on
every input whose first application's output contains no occurrence of any
redundant phrase — in particular whenever no removal splices characters
into a new phrase; in general a removal can create a fresh occurrence,
which only the second application removes. -/
theorem c9_trim_amended : ∀ s : List Char,
    (∀ ph ∈ redundantPhrases, containsSub ph (contextTrim s) = false) →
    contextTrim (contextTrim s) = contextTrim s := by
  intro s h
  show joinSp (splitWs (redundantPhrases.foldl
    (fun acc ph => replaceAll ph [] acc) (contextTrim s))) = contextTrim s
  rw [removePhrases_id redundantPhrases (contextTrim s) h]
  have e2 : splitWs (contextTrim s) =
      splitWs (redundantPhrases.foldl (fun acc ph => replaceAll ph [] acc) s) := by
    show splitWs (joinSp (splitWs (redundantPhrases.foldl
      (fun acc ph => replaceAll ph [] acc) s))) = _
    exact split_join _ (splitWs_words _)
  rw [e2]
  rfl

/-- Witness for C9 (amended) at a phrase-free prompt. -/
theorem c9_trim_amended_witness :
    contextTrim (contextTrim (cl "hello there")) = contextTrim (cl "hello there") :=
  c9_trim_amended (cl "hello there") (by decide)


end UnifiedOpt
